import Mathlib

/-
Verification of the skillctl skill-manager core against its design
specification.  The validation, fetch and store subsystems are the Rust
core of the repository; the repository snapshot ships only their callers
and documentation, so those components are modelled from the
specification text.  The NPM installer script (scripts/install.js) and
the Node wrapper (bin/run.js) are embedded from their JavaScript source.
-/

namespace SkillCtl

/-! ## Generic list scanning utilities (no library pattern helpers used) -/

/-- leadsWith pat l is true when pat occurs at the very front of l. -/
def leadsWith {α} [DecidableEq α] : List α → List α → Bool
  | [], _ => true
  | _ :: _, [] => false
  | a :: as, b :: bs => if a = b then leadsWith as bs else false

/-- hasSeq pat l is true when pat occurs contiguously somewhere in l. -/
def hasSeq {α} [DecidableEq α] (pat : List α) : List α → Bool
  | [] => pat.isEmpty
  | b :: t => leadsWith pat (b :: t) || hasSeq pat t

/-- breakAtSeq pat l splits l at the first contiguous occurrence of pat,
returning the part before it and the part after it. -/
def breakAtSeq {α} [DecidableEq α] (pat : List α) : List α → Option (List α × List α)
  | [] => none
  | b :: t =>
    if leadsWith pat (b :: t) then some ([], (b :: t).drop pat.length)
    else
      match breakAtSeq pat t with
      | some (pre, suf) => some (b :: pre, suf)
      | none => none

/-- splitOnChar c l splits l on every occurrence of the separator c. -/
def splitOnChar {α} [DecidableEq α] (c : α) : List α → List (List α)
  | [] => [[]]
  | b :: t =>
    let r := splitOnChar c t
    if b = c then [] :: r
    else
      match r with
      | h :: tl => (b :: h) :: tl
      | [] => [[b]]

/-- takeUntilSeq delim l is the longest initial part of l before the first
contiguous occurrence of delim (all of l when delim never occurs). -/
def takeUntilSeq {α} [DecidableEq α] (delim : List α) : List α → List α
  | [] => []
  | b :: t => if leadsWith delim (b :: t) then [] else b :: takeUntilSeq delim t

/-! ## Rejection taxonomy (spec section 7)

Modelled from the spec: the machine-distinguishable rejection kinds of the
Validator component of the Rust core, which is absent from the snapshot. -/

inductive RejectionReason where
  | traversal
  | disallowedScheme
  | privateOrMetadataAddress
  | disallowedHost
  | oversizeContent
  | binaryContent
  | unsafeDirective
  | malformedInput
deriving DecidableEq, Repr

/-- isRejected e is true exactly when the check returned an error. -/
def isRejected {ε α : Type} (e : Except ε α) : Bool :=
  match e with
  | .error _ => true
  | .ok _ => false

/-! ## Validator: skill names (spec section 4.1) -/

/-- Modelled from the spec: the length bound on skill names (1 to 64). -/
def nameMaxLen : Nat := 64

/-- Modelled from the spec: the allowed character class for skill names,
letters, digits, hyphen and underscore. -/
def isAllowedNameChar (c : Char) : Bool :=
  c.isAlpha || c.isDigit || c = '-' || c = '_'

/-- containsTraversal s is true when s contains a parent-directory
sequence or a path separator. -/
def containsTraversal (s : String) : Bool :=
  hasSeq ['.', '.'] s.data || s.data.any (fun c => c = '/') ||
    s.data.any (fun c => c = '\\')

/-- Modelled from the spec: validateName of the missing Validator module.
It rejects any candidate containing a parent-directory sequence or path
separator with kind traversal, then rejects empty candidates, candidates
over the length bound, and candidates with a character outside the
allowed class. -/
def validateName (s : String) : Except RejectionReason String :=
  if containsTraversal s then .error .traversal
  else if s.isEmpty then .error .malformedInput
  else if nameMaxLen < s.length then .error .malformedInput
  else if s.data.all isAllowedNameChar then .ok s
  else .error .malformedInput

/-! ## Validator: remote URLs (spec sections 3 and 4.1) -/

structure ParsedURL where
  scheme : String
  host : String
  path : String
deriving DecidableEq, Repr

/-- Modelled from the spec: minimal URL parsing for the missing Validator
module, splitting a candidate into scheme, host and path and rejecting
candidates without a scheme separator or with an empty scheme or host. -/
def parseURL (s : String) : Option ParsedURL :=
  match breakAtSeq [':', '/', '/'] s.data with
  | none => none
  | some (sch, rest) =>
    if sch.isEmpty then none
    else
      let hostport := rest.takeWhile (fun c => c ≠ '/')
      let path := rest.drop hostport.length
      let host := hostport.takeWhile (fun c => c ≠ ':')
      if host.isEmpty then none
      else some ⟨⟨sch⟩, ⟨host⟩, ⟨path⟩⟩

/-- digitsToNat interprets a list of decimal digit characters as a Nat. -/
def digitsToNat (l : List Char) : Nat :=
  l.foldl (fun a c => a * 10 + (c.toNat - 48)) 0

/-- parseOctet parses one dotted-quad component in the range 0 to 255. -/
def parseOctet (l : List Char) : Option Nat :=
  if l.isEmpty then none
  else if l.all Char.isDigit then
    let n := digitsToNat l
    if n ≤ 255 then some n else none
  else none

/-- parseIPv4 parses a literal dotted-quad IPv4 host. -/
def parseIPv4 (host : String) : Option (Nat × Nat × Nat × Nat) :=
  match splitOnChar '.' host.data with
  | [a, b, c, d] =>
    match parseOctet a, parseOctet b, parseOctet c, parseOctet d with
    | some x, some y, some z, some w => some (x, y, z, w)
    | _, _, _, _ => none
  | _ => none

/-- PrivateRange a b holds when the address a.b.c.d lies in a private-use
range (10.0.0.0/8, 172.16.0.0/12, 192.168.0.0/16), the loopback range
(127.0.0.0/8) or the link-local range (169.254.0.0/16). -/
def PrivateRange (a b : Nat) : Prop :=
  a = 10 ∨ (a = 172 ∧ 16 ≤ b ∧ b ≤ 31) ∨ (a = 192 ∧ b = 168) ∨
    a = 127 ∨ (a = 169 ∧ b = 254)

instance (a b : Nat) : Decidable (PrivateRange a b) := by
  unfold PrivateRange; infer_instance

/-- isPrivateOrLocalIP decides PrivateRange on the first two octets. -/
def isPrivateOrLocalIP (a b : Nat) : Bool :=
  decide (PrivateRange a b)

/-- Modelled from the spec: the denylist of known cloud metadata
endpoint host names. -/
def metadataDenylist : List String :=
  ["metadata.google.internal", "metadata.goog"]

/-- Modelled from the spec: the explicit allow-list of hosting
providers. -/
def providerAllowlist : List String :=
  ["github.com", "gitlab.com"]

/-- isLoopbackHost recognises the development loopback hosts. -/
def isLoopbackHost (h : String) : Bool :=
  h = "localhost" ||
    (match parseIPv4 h with
     | some (a, _, _, _) => a = 127
     | none => false)

/-- Modelled from the spec: validateURL of the missing Validator module.
It parses the candidate, rejects hosts that resolve to a private-use,
loopback or link-local address or appear on the metadata denylist with
kind privateOrMetadataAddress, then rejects insecure schemes (insecure
transport is tolerated only toward a loopback host), then rejects hosts
absent from the provider allow-list. -/
def validateURL (s : String) : Except RejectionReason ParsedURL :=
  match parseURL s with
  | none => .error .malformedInput
  | some u =>
    if (match parseIPv4 u.host with
        | some (a, b, _, _) => isPrivateOrLocalIP a b
        | none => false) || metadataDenylist.contains u.host then
      .error .privateOrMetadataAddress
    else if u.scheme = "https" ∨ (u.scheme = "http" ∧ isLoopbackHost u.host) then
      if providerAllowlist.contains u.host then .ok u
      else .error .disallowedHost
    else .error .disallowedScheme

/-! ## Validator: fetched content (spec sections 3 and 4.1)

Content is modelled as a list of byte values. -/

/-- strBytes s is the byte-value list of the characters of s. -/
def strBytes (s : String) : List Nat :=
  s.data.map Char.toNat

/-- Modelled from the spec: the content size bound of one MiB. -/
def contentMaxSize : Nat := 1048576

/-- Modelled from the spec: the denylisted directive markers looked for in
the front-matter section (unsafe type tags and file inclusion). -/
def denylistedDirectives : List (List Nat) :=
  [strBytes "!!python", strBytes "!include"]

/-- fmOpen is the byte sequence opening a front-matter section. -/
def fmOpen : List Nat := strBytes "---"

/-- fmClose is the byte sequence closing a front-matter section. -/
def fmClose : List Nat := strBytes "\n---"

/-- frontMatter bs is the front-matter section of the document: when the
document opens with a delimiter line, the bytes up to the closing
delimiter; otherwise empty. -/
def frontMatter (bs : List Nat) : List Nat :=
  if leadsWith fmOpen bs then takeUntilSeq fmClose (bs.drop fmOpen.length)
  else []

/-- Modelled from the spec: validateContent of the missing Validator
module.  It rejects content over the size bound, content containing a
null byte, and content whose front-matter section contains a denylisted
directive marker. -/
def validateContent (bs : List Nat) : Except RejectionReason Unit :=
  if contentMaxSize < bs.length then .error .oversizeContent
  else if bs.any (fun b => b = 0) then .error .binaryContent
  else if denylistedDirectives.any (fun d => hasSeq d (frontMatter bs)) then
    .error .unsafeDirective
  else .ok ()

/-! ## Content hash (spec section 3)

Modelled from the spec: a collision-free digest of the content, standing
in for the cryptographic hash of the missing core.  The positional
encoding below is injective on byte-value lists. -/

def contentHash : List Nat → Nat
  | [] => 0
  | b :: t => b % 256 + 1 + 257 * contentHash t

/-! ## Fetcher (spec section 4.2)

Modelled from the spec: the hardened network fetch path of the missing
core.  The network is an oracle from URL to response; the fetcher follows
redirect hops under the fixed transport policy, re-validating every hop
through the Validator, and records every request it actually issues. -/

inductive NetResponse where
  | content (bytes : List Nat) (contentType : String)
  | redirect (target : String)
  | failure
deriving DecidableEq, Repr

inductive FetchError where
  | transportFailure
  | timeout
  | redirectLimitExceeded
  | redirectToDisallowedHost
  | nonTextContentType
deriving DecidableEq, Repr

structure TransportPolicy where
  timeoutSecs : Nat
  maxRedirects : Nat
  userAgent : String
deriving DecidableEq, Repr

/-- Modelled from the spec: the fixed transport policy constants (a
bounded timeout of tens of seconds, at most five redirect hops, a
declared client identifier). -/
def fixedPolicy : TransportPolicy :=
  ⟨30, 5, "skillctl/0.0.9"⟩

structure HttpRequest where
  url : String
  userAgent : String
  timeoutSecs : Nat
deriving DecidableEq, Repr

/-- mkRequest stamps a request with the transport policy attributes. -/
def mkRequest (p : TransportPolicy) (u : String) : HttpRequest :=
  ⟨u, p.userAgent, p.timeoutSecs⟩

/-- textLike ct recognises text content types. -/
def textLike (ct : String) : Bool :=
  leadsWith ("text/").data ct.data

/-- fetchGo runs the fetch loop: it validates the current URL before any
request, issues the request, and on a redirect consumes one unit of the
hop budget and recurses on the target.  It returns the outcome and the
list of requests actually issued. -/
def fetchGo (net : String → NetResponse) (p : TransportPolicy) :
    Nat → String → Except FetchError (List Nat) × List HttpRequest
  | fuel, url =>
    match validateURL url with
    | .error _ => (.error .redirectToDisallowedHost, [])
    | .ok _ =>
      match net url with
      | .failure => (.error .transportFailure, [mkRequest p url])
      | .content bs ct =>
        if textLike ct then (.ok bs, [mkRequest p url])
        else (.error .nonTextContentType, [mkRequest p url])
      | .redirect tgt =>
        match fuel with
        | 0 => (.error .redirectLimitExceeded, [mkRequest p url])
        | fuel' + 1 =>
          let r := fetchGo net p fuel' tgt
          (r.1, mkRequest p url :: r.2)

/-- fetchTrace runs a fetch under the fixed transport policy. -/
def fetchTrace (net : String → NetResponse) (url : String) :
    Except FetchError (List Nat) × List HttpRequest :=
  fetchGo net fixedPolicy fixedPolicy.maxRedirects url

/-! ## Store (spec sections 3 and 4.3)

Modelled from the spec: the content store and manifest of the missing
core.  The manifest maps each skill name to its entry; the file layout
maps each skill name to the stored bytes. -/

structure SkillEntry where
  name : String
  origin : String
  ref : String
  localPath : String
  hash : Nat
  lastUpdated : Nat
deriving DecidableEq, Repr

structure StoreState where
  manifest : List (String × SkillEntry)
  files : List (String × List Nat)
deriving DecidableEq, Repr

/-- storePath n is the on-disk path for a validated name: the store root
joined with the name and a fixed file name. -/
def storePath (n : String) : String :=
  ".skillctl/store/" ++ n ++ "/SKILL.md"

/-- lookupEntry reads the manifest entry recorded for a name. -/
def lookupEntry (s : StoreState) (n : String) : Option SkillEntry :=
  (s.manifest.find? (fun p => p.1 == n)).map Prod.snd

/-- lookupFile reads the stored bytes recorded for a name. -/
def lookupFile (s : StoreState) (n : String) : Option (List Nat) :=
  (s.files.find? (fun p => p.1 == n)).map Prod.snd

/-- upsertEntry inserts or overwrites the manifest entry for e.name. -/
def upsertEntry : List (String × SkillEntry) → SkillEntry → List (String × SkillEntry)
  | [], e => [(e.name, e)]
  | p :: t, e => if p.1 == e.name then (e.name, e) :: t else p :: upsertEntry t e

/-- setFile inserts or overwrites the stored bytes for a name. -/
def setFile : List (String × List Nat) → String → List Nat → List (String × List Nat)
  | [], n, bs => [(n, bs)]
  | p :: t, n, bs => if p.1 == n then (n, bs) :: t else p :: setFile t n bs

inductive InstallError where
  | validation (r : RejectionReason)
  | fetchFailed (e : FetchError)
deriving DecidableEq, Repr

structure InstallResult where
  store : StoreState
  result : Except InstallError SkillEntry
  requests : List HttpRequest
deriving Repr

/-- entryLastUpdated keeps the recorded timestamp when the freshly
computed hash equals the recorded one, and stamps the current time
otherwise (spec section 8, idempotence of install). -/
def entryLastUpdated (s : StoreState) (n : String) (h now : Nat) : Nat :=
  match lookupEntry s n with
  | some old => if old.hash = h then old.lastUpdated else now
  | none => now

/-- mkEntry builds the manifest entry recorded by a successful install. -/
def mkEntry (s : StoreState) (n url rf : String) (bs : List Nat) (now : Nat) :
    SkillEntry :=
  ⟨n, url, rf, storePath n, contentHash bs,
    entryLastUpdated s n (contentHash bs) now⟩

/-- Modelled from the spec: install of the missing Store module.  It
validates the name and the URL, fetches, validates the content, computes
the hash, writes the blob at the path derived from the validated name,
and records the manifest entry; on any failure the store is left exactly
in its pre-install state. -/
def install (net : String → NetResponse) (s : StoreState)
    (n url rf : String) (now : Nat) : InstallResult :=
  match validateName n with
  | .error r => ⟨s, .error (.validation r), []⟩
  | .ok _ =>
    match validateURL url with
    | .error r => ⟨s, .error (.validation r), []⟩
    | .ok _ =>
      match fetchTrace net url with
      | (.error e, reqs) => ⟨s, .error (.fetchFailed e), reqs⟩
      | (.ok bs, reqs) =>
        match validateContent bs with
        | .error r => ⟨s, .error (.validation r), reqs⟩
        | .ok _ =>
          ⟨⟨upsertEntry s.manifest (mkEntry s n url rf bs now),
              setFile s.files n bs⟩,
            .ok (mkEntry s n url rf bs now), reqs⟩

inductive UpdateOutcome where
  | updated
  | unchanged
  | updateError
deriving DecidableEq, Repr

/-- Modelled from the spec: update of the missing Store module.  It
re-runs install against the recorded origin and ref, compares the new
hash with the recorded one to decide updated versus unchanged, and on
any failure leaves the existing entry untouched. -/
def update (net : String → NetResponse) (s : StoreState) (n : String)
    (now : Nat) : StoreState × UpdateOutcome :=
  match lookupEntry s n with
  | none => (s, .updateError)
  | some old =>
    let r := install net s n old.origin old.ref now
    match r.result with
    | .error _ => (s, .updateError)
    | .ok e => (r.store, if e.hash = old.hash then .unchanged else .updated)

inductive VerifyOutcome where
  | hashMatch
  | hashMismatch
  | notFound
deriving DecidableEq, Repr

/-- Modelled from the spec: verify of the missing Store module.  It
recomputes the hash of the on-disk content and compares it with the
recorded one; it only observes the store and never repairs it. -/
def verify (s : StoreState) (n : String) : VerifyOutcome :=
  match lookupEntry s n with
  | none => .notFound
  | some e =>
    match lookupFile s n with
    | none => .hashMismatch
    | some bs => if contentHash bs = e.hash then .hashMatch else .hashMismatch

/-- mutateFile replaces the stored bytes for a name out-of-band, leaving
the manifest untouched. -/
def mutateFile (s : StoreState) (n : String) (bs : List Nat) : StoreState :=
  ⟨s.manifest, setFile s.files n bs⟩

/-! ## Installer/bootstrap script (scripts/install.js)

Embedded from the JavaScript source: the NPM install script downloads
the platform binary from a fixed GitHub release URL into the package bin
directory and marks it executable.  Its filesystem writes are modelled as
an effect list. -/

inductive FSWrite where
  | mkdir (path : String)
  | writeFile (path : String)
  | chmod (path : String) (mode : Nat)
deriving DecidableEq, Repr

def FSWrite.path : FSWrite → String
  | .mkdir p => p
  | .writeFile p => p
  | .chmod p _ => p

/-- installerExt mirrors the extension choice of scripts/install.js. -/
def installerExt (platform : String) : String :=
  if platform = "win32" then ".exe" else ""

/-- supportedPlatform mirrors the platform dispatch of
scripts/install.js, which exits for any platform other than win32,
darwin and linux before touching the filesystem. -/
def supportedPlatform (platform : String) : Bool :=
  platform = "win32" || platform = "darwin" || platform = "linux"

/-- binDir root is the bin directory next to the script directory,
path.join of the script directory, the parent step and bin. -/
def binDir (root : String) : String :=
  root ++ "/bin"

/-- installerDest root platform is the fixed binary destination path of
scripts/install.js. -/
def installerDest (root platform : String) : String :=
  binDir root ++ "/skillctl" ++ installerExt platform

/-- installerWrites embeds the filesystem writes of scripts/install.js:
nothing on an unsupported platform; otherwise the bin directory is
created when absent, and when the download succeeds the binary is
written at the fixed destination and, off Windows, marked executable. -/
def installerWrites (root platform : String) (binDirExists downloadOk : Bool) :
    List FSWrite :=
  if supportedPlatform platform then
    (if binDirExists then [] else [.mkdir (binDir root)]) ++
      (if downloadOk then
        [.writeFile (installerDest root platform)] ++
          (if platform = "win32" then []
           else [.chmod (installerDest root platform) 0o755])
      else [])
  else []

/-! ## Node wrapper (bin/run.js)

Embedded from the JavaScript source: the wrapper checks that the platform
binary exists; when absent it prints an error and exits with status 1
without spawning anything; when present it spawns the binary with every
command-line argument forwarded and exits with the child exit code. -/

structure WrapperRun where
  printedError : Bool
  spawned : Option (String × List String)
  exitCode : Nat
deriving DecidableEq, Repr

/-- wrapperBinPath mirrors the binary path computed by bin/run.js. -/
def wrapperBinPath (dir platform : String) : String :=
  dir ++ "/skill-cli" ++ (if platform = "win32" then ".exe" else "")

/-- runWrapper embeds bin/run.js: argv is the full process argument
vector, whose first two entries are the node executable and the script
path, and childExit is the exit code reported by the spawned child. -/
def runWrapper (dir platform : String) (binExists : Bool)
    (argv : List String) (childExit : Nat) : WrapperRun :=
  if binExists then
    ⟨false, some (wrapperBinPath dir platform, argv.drop 2), childExit⟩
  else
    ⟨true, none, 1⟩

/-! ## Concrete scenario fixtures -/

/-- netFail is a network on which every request fails. -/
def netFail : String → NetResponse := fun _ => .failure

/-- netOk is a network serving a small text document everywhere. -/
def netOk : String → NetResponse :=
  fun _ => .content (strBytes "hello") "text/markdown"

/-- emptyStore is the pre-install store state. -/
def emptyStore : StoreState := ⟨[], []⟩

/-- netRedirPrivate is a network that redirects every request toward a
private address. -/
def netRedirPrivate : String → NetResponse :=
  fun _ => .redirect "https://192.168.1.1/x"

/-- wEntry and wStore form a concrete installed-store fixture. -/
def wEntry : SkillEntry :=
  ⟨"typescript", "https://github.com/wshobson/agents", "main",
    storePath "typescript", contentHash (strBytes "hello"), 7⟩

def wStore : StoreState :=
  ⟨[("typescript", wEntry)], [("typescript", strBytes "hello")]⟩

theorem leadsWith_iff {α} [DecidableEq α] (pat : List α) :
    ∀ l : List α, leadsWith pat l = true ↔ ∃ suf, l = pat ++ suf := by
  induction pat with
  | nil => intro l; simp [leadsWith]
  | cons a as ih =>
    intro l
    cases l with
    | nil => simp [leadsWith]
    | cons b bs =>
      by_cases hab : a = b
      · subst hab
        have hstep : leadsWith (a :: as) (a :: bs) = leadsWith as bs := by
          simp [leadsWith]
        rw [hstep, ih bs]
        constructor
        · rintro ⟨suf, h⟩; exact ⟨suf, by simp [h]⟩
        · rintro ⟨suf, h⟩
          refine ⟨suf, ?_⟩
          simpa using h
      · have hstep : leadsWith (a :: as) (b :: bs) = false := by
          simp [leadsWith, hab]
        rw [hstep]
        constructor
        · intro hf; exact absurd hf (by simp)
        · rintro ⟨suf, h⟩
          have h2 : b = a ∧ bs = as ++ suf := by simpa using h
          exact absurd h2.1.symm hab

theorem hasSeq_iff {α} [DecidableEq α] (pat : List α) :
    ∀ l : List α, hasSeq pat l = true ↔ ∃ pre suf, l = pre ++ pat ++ suf := by
  intro l
  induction l with
  | nil =>
    simp only [hasSeq, List.isEmpty_iff]
    constructor
    · intro h; exact ⟨[], [], by simp [h]⟩
    · rintro ⟨pre, suf, h⟩
      have := h.symm
      rcases List.append_eq_nil.mp (List.append_eq_nil.mp this).1 with ⟨_, h2⟩
      exact h2
  | cons b t ih =>
    simp only [hasSeq, Bool.or_eq_true, leadsWith_iff, ih]
    constructor
    · rintro (⟨suf, h⟩ | ⟨pre, suf, h⟩)
      · exact ⟨[], suf, by simp [h]⟩
      · exact ⟨b :: pre, suf, by simp [h]⟩
    · rintro ⟨pre, suf, h⟩
      cases pre with
      | nil =>
        left
        exact ⟨suf, by simpa using h⟩
      | cons x xs =>
        right
        have h2 : b = x ∧ t = xs ++ pat ++ suf := by simpa using h
        exact ⟨xs, suf, h2.2⟩

theorem contentHash_inj : ∀ l1 l2 : List Nat,
    (∀ b ∈ l1, b < 256) → (∀ b ∈ l2, b < 256) →
    contentHash l1 = contentHash l2 → l1 = l2 := by
  intro l1
  induction l1 with
  | nil =>
    intro l2 _ _ h
    cases l2 with
    | nil => rfl
    | cons b u =>
      exfalso
      simp only [contentHash] at h
      omega
  | cons a t ih =>
    intro l2 h1 h2 h
    cases l2 with
    | nil =>
      exfalso
      simp only [contentHash] at h
      omega
    | cons b u =>
      simp only [contentHash] at h
      have ha : a % 256 < 256 := Nat.mod_lt _ (by norm_num)
      have hb : b % 256 < 256 := Nat.mod_lt _ (by norm_num)
      have hmod : a % 256 = b % 256 ∧ contentHash t = contentHash u := by
        constructor <;> omega
      have haa : a % 256 = a := Nat.mod_eq_of_lt (h1 a (by simp))
      have hbb : b % 256 = b := Nat.mod_eq_of_lt (h2 b (by simp))
      have hab : a = b := by rw [← haa, ← hbb]; exact hmod.1
      have ht : t = u :=
        ih u (fun x hx => h1 x (by simp [hx])) (fun x hx => h2 x (by simp [hx])) hmod.2
      rw [hab, ht]

theorem lookupEntry_upsert (m : List (String × SkillEntry)) (e : SkillEntry)
    (fs : List (String × List Nat)) :
    lookupEntry ⟨upsertEntry m e, fs⟩ e.name = some e := by
  induction m with
  | nil => simp [lookupEntry, upsertEntry]
  | cons p t ih =>
    by_cases hp : p.1 = e.name
    · simp [lookupEntry, upsertEntry, hp]
    · simp only [lookupEntry, upsertEntry] at *
      rw [if_neg (by simp [hp])]
      rw [List.find?_cons_of_neg _ (by simp [hp])]
      exact ih

theorem lookupFile_setFile (fs : List (String × List Nat)) (n : String)
    (m : List (String × SkillEntry)) (bs : List Nat) :
    lookupFile ⟨m, setFile fs n bs⟩ n = some bs := by
  induction fs with
  | nil => simp [lookupFile, setFile]
  | cons p t ih =>
    by_cases hp : p.1 = n
    · simp [lookupFile, setFile, hp]
    · simp only [lookupFile, setFile] at *
      rw [if_neg (by simp [hp])]
      rw [List.find?_cons_of_neg _ (by simp [hp])]
      exact ih

/-! ## Claim theorems -/

/-- C1: every string containing a parent-directory sequence or a path
separator is rejected by validateName with kind traversal; validateName
also rejects the empty string, any string over the length bound, and any
string containing a character outside the allowed class. -/
theorem validateName_spec :
    (∀ s : String,
        ((∃ pre suf, s.data = pre ++ ['.', '.'] ++ suf) ∨
          '/' ∈ s.data ∨ '\\' ∈ s.data) →
        validateName s = .error .traversal) ∧
    isRejected (validateName "") = true ∧
    (∀ s : String, nameMaxLen < s.length → isRejected (validateName s) = true) ∧
    (∀ (s : String) (c : Char), c ∈ s.data → isAllowedNameChar c = false →
        isRejected (validateName s) = true) := by
  refine ⟨?_, rfl, ?_, ?_⟩
  · intro s h
    have hct : containsTraversal s = true := by
      unfold containsTraversal
      rcases h with h | h | h
      · rw [(hasSeq_iff _ _).mpr h]; simp
      · have ha : s.data.any (fun c => c = '/') = true := by
          simp only [List.any_eq_true, decide_eq_true_eq]
          exact ⟨'/', h, rfl⟩
        rw [ha]; simp
      · have ha : s.data.any (fun c => c = '\\') = true := by
          simp only [List.any_eq_true, decide_eq_true_eq]
          exact ⟨'\\', h, rfl⟩
        rw [ha]; simp
    simp [validateName, hct]
  · intro s h
    unfold validateName
    split_ifs with h1 h2 <;> rfl
  · intro s c hc hcf
    unfold validateName
    split_ifs with h1 h2 h3 h4 <;>
      first
      | rfl
      | exact absurd (List.all_eq_true.mp h4 c hc) (by simp [hcf])

/-- C1 witness: concrete instances discharging each hypothesis. -/
theorem validateName_spec_witness :
    ((∃ pre suf, ("../../etc").data = pre ++ ['.', '.'] ++ suf) ∧
      validateName "../../etc" = .error .traversal) ∧
    (nameMaxLen <
        ("aaaaaaaaaaaaaaaaaaaaaaaaaaaaaaaaaaaaaaaaaaaaaaaaaaaaaaaaaaaaaaaaa").length ∧
      isRejected
        (validateName
          "aaaaaaaaaaaaaaaaaaaaaaaaaaaaaaaaaaaaaaaaaaaaaaaaaaaaaaaaaaaaaaaaa") =
        true) ∧
    (('~' ∈ ("bad~name").data ∧ isAllowedNameChar '~' = false) ∧
      isRejected (validateName "bad~name") = true) :=
  ⟨⟨⟨[], ("/../etc").data, by decide⟩,
      validateName_spec.1 "../../etc" (Or.inl ⟨[], ("/../etc").data, by decide⟩)⟩,
    ⟨by decide,
      validateName_spec.2.2.1
        "aaaaaaaaaaaaaaaaaaaaaaaaaaaaaaaaaaaaaaaaaaaaaaaaaaaaaaaaaaaaaaaaa"
        (by decide)⟩,
    ⟨⟨by decide, by decide⟩,
      validateName_spec.2.2.2 "bad~name" '~' (by decide) (by decide)⟩⟩

/-- C2: every URL whose host is a literal address in a private-use,
loopback or link-local range, or a known metadata endpoint host, is
rejected by validateURL with kind privateOrMetadataAddress; a URL with
host github.com over the secure scheme is accepted. -/
theorem validateURL_spec :
    (∀ (s : String) (u : ParsedURL), parseURL s = some u →
        ((∃ a b c d, parseIPv4 u.host = some (a, b, c, d) ∧ PrivateRange a b) ∨
          u.host ∈ metadataDenylist) →
        validateURL s = .error .privateOrMetadataAddress) ∧
    validateURL "https://github.com/wshobson/agents" =
      .ok ⟨"https", "github.com", "/wshobson/agents"⟩ := by
  refine ⟨?_, rfl⟩
  intro s u hp h
  have hcond : ((match parseIPv4 u.host with
      | some (a, b, _, _) => isPrivateOrLocalIP a b
      | none => false) || metadataDenylist.contains u.host) = true := by
    rcases h with ⟨a, b, c, d, hip, hpriv⟩ | hden
    · rw [hip]
      simp [isPrivateOrLocalIP, hpriv]
    · simp [hden]
  unfold validateURL
  rw [hp]
  simp only [hcond, if_true]

/-- C2 witness: the AWS metadata endpoint address is rejected with kind
privateOrMetadataAddress. -/
theorem validateURL_spec_witness :
    (parseURL "http://169.254.169.254/latest/meta-data/" =
        some ⟨"http", "169.254.169.254", "/latest/meta-data/"⟩ ∧
      parseIPv4 "169.254.169.254" = some (169, 254, 169, 254) ∧
      PrivateRange 169 254) ∧
    validateURL "http://169.254.169.254/latest/meta-data/" =
      .error .privateOrMetadataAddress :=
  ⟨⟨rfl, rfl, by decide⟩,
    validateURL_spec.1 "http://169.254.169.254/latest/meta-data/"
      ⟨"http", "169.254.169.254", "/latest/meta-data/"⟩ rfl
      (Or.inl ⟨169, 254, 169, 254, rfl, by decide⟩)⟩

/-- C4: every byte string over the size bound or containing a null byte
is rejected by validateContent; every document under the bound without a
null byte whose front-matter contains no denylisted directive marker is
accepted. -/
theorem validateContent_spec :
    (∀ bs : List Nat, contentMaxSize < bs.length ∨ 0 ∈ bs →
        isRejected (validateContent bs) = true) ∧
    (∀ bs : List Nat, bs.length ≤ contentMaxSize → 0 ∉ bs →
        (∀ d ∈ denylistedDirectives,
          ¬ ∃ pre suf, frontMatter bs = pre ++ d ++ suf) →
        validateContent bs = .ok ()) := by
  constructor
  · intro bs h
    unfold validateContent
    rcases h with h | h
    · rw [if_pos h]; rfl
    · split_ifs with h1 h2 h3 <;>
        first
        | rfl
        | exact absurd
            (by simp only [List.any_eq_true, decide_eq_true_eq]
                exact ⟨0, h, rfl⟩) h2
  · intro bs hlen hnull hdir
    unfold validateContent
    split_ifs with h1 h2 h3
    · exact absurd h1 (by omega)
    · exfalso
      simp only [List.any_eq_true, decide_eq_true_eq] at h2
      rcases h2 with ⟨x, hx, hx0⟩
      exact hnull (hx0 ▸ hx)
    · exfalso
      simp only [List.any_eq_true] at h3
      rcases h3 with ⟨d, hd, hds⟩
      exact hdir d hd ((hasSeq_iff d _).mp hds)
    · rfl

/-- C4 witness: a null byte is rejected, a small plain document is
accepted. -/
theorem validateContent_spec_witness :
    (0 ∈ [104, 0, 105] ∧ isRejected (validateContent [104, 0, 105]) = true) ∧
    ((strBytes "hello").length ≤ contentMaxSize ∧ 0 ∉ strBytes "hello" ∧
      validateContent (strBytes "hello") = .ok ()) := by
  refine ⟨⟨by decide, validateContent_spec.1 [104, 0, 105] (Or.inr (by decide))⟩,
    by decide, by decide,
    validateContent_spec.2 (strBytes "hello") (by decide) (by decide) ?_⟩
  intro d hd hex
  have hs := (hasSeq_iff d (frontMatter (strBytes "hello"))).mpr hex
  revert hs
  fin_cases hd <;> decide

/-- C3: an install whose name or URL is rejected by the Validator fails
before any network call: the request list is empty, so the Fetcher is
never invoked for a rejected input. -/
theorem install_rejected_no_fetch :
    ∀ (net : String → NetResponse) (s : StoreState) (n url rf : String)
      (now : Nat),
      isRejected (validateName n) = true ∨ isRejected (validateURL url) = true →
      (install net s n url rf now).requests = [] ∧
      ∃ r, (install net s n url rf now).result = .error (.validation r) := by
  intro net s n url rf now h
  unfold install
  cases hn : validateName n with
  | error r => exact ⟨rfl, r, rfl⟩
  | ok a =>
    cases hu : validateURL url with
    | error r => exact ⟨rfl, r, rfl⟩
    | ok b =>
      exfalso
      rcases h with h | h
      · rw [hn] at h; exact absurd h (by simp [isRejected])
      · rw [hu] at h; exact absurd h (by simp [isRejected])

/-- C3 witness: a traversal name is rejected with no request issued. -/
theorem install_rejected_no_fetch_witness :
    (isRejected (validateName "../../etc") = true ∨
      isRejected (validateURL "https://github.com/wshobson/agents") = true) ∧
    (install (fun _ => .failure) ⟨[], []⟩ "../../etc"
        "https://github.com/wshobson/agents" "main" 0).requests = [] ∧
    ∃ r, (install (fun _ => .failure) ⟨[], []⟩ "../../etc"
        "https://github.com/wshobson/agents" "main" 0).result =
      .error (.validation r) :=
  ⟨Or.inl (by decide),
    (install_rejected_no_fetch (fun _ => .failure) ⟨[], []⟩ "../../etc"
        "https://github.com/wshobson/agents" "main" 0 (Or.inl (by decide))).1,
    (install_rejected_no_fetch (fun _ => .failure) ⟨[], []⟩ "../../etc"
        "https://github.com/wshobson/agents" "main" 0 (Or.inl (by decide))).2⟩

/-- C5: install is atomic under failure: when any step fails, the store
afterward equals its pre-install state, with no manifest entry and no
file for the attempted name beyond what was already there. -/
theorem install_atomic_on_failure :
    ∀ (net : String → NetResponse) (s : StoreState) (n url rf : String)
      (now : Nat) (e : InstallError),
      (install net s n url rf now).result = .error e →
      (install net s n url rf now).store = s ∧
      (lookupEntry s n = none →
        lookupEntry (install net s n url rf now).store n = none) ∧
      (lookupFile s n = none →
        lookupFile (install net s n url rf now).store n = none) := by
  intro net s n url rf now e he
  have hst : (install net s n url rf now).store = s := by
    unfold install at he ⊢
    split at he
    · simp_all
    · split at he
      · simp_all
      · split at he
        · simp_all
        · split at he
          · simp_all
          · simp_all
  exact ⟨hst, fun h => by rw [hst]; exact h, fun h => by rw [hst]; exact h⟩

/-- C5 witness: a fetch failure leaves the empty store empty. -/
theorem install_atomic_on_failure_witness :
    (install netFail emptyStore "typescript"
        "https://github.com/wshobson/agents" "main" 7).result =
      .error (.fetchFailed .transportFailure) ∧
    (install netFail emptyStore "typescript"
        "https://github.com/wshobson/agents" "main" 7).store = emptyStore ∧
    lookupEntry (install netFail emptyStore "typescript"
        "https://github.com/wshobson/agents" "main" 7).store "typescript" =
      none ∧
    lookupFile (install netFail emptyStore "typescript"
        "https://github.com/wshobson/agents" "main" 7).store "typescript" =
      none :=
  ⟨rfl,
    (install_atomic_on_failure netFail emptyStore "typescript"
        "https://github.com/wshobson/agents" "main" 7
        (.fetchFailed .transportFailure) rfl).1,
    (install_atomic_on_failure netFail emptyStore "typescript"
        "https://github.com/wshobson/agents" "main" 7
        (.fetchFailed .transportFailure) rfl).2.1 rfl,
    (install_atomic_on_failure netFail emptyStore "typescript"
        "https://github.com/wshobson/agents" "main" 7
        (.fetchFailed .transportFailure) rfl).2.2 rfl⟩
theorem fetchGo_policy_attrs (net : String → NetResponse) (p : TransportPolicy) :
    ∀ (fuel : Nat) (url : String) (r : HttpRequest),
      r ∈ (fetchGo net p fuel url).2 →
      r.userAgent = p.userAgent ∧ r.timeoutSecs = p.timeoutSecs := by
  intro fuel
  induction fuel with
  | zero =>
    intro url r hr
    unfold fetchGo at hr
    cases hv : validateURL url with
    | error e => rw [hv] at hr; simp at hr
    | ok w =>
      rw [hv] at hr
      cases hn : net url with
      | failure =>
        rw [hn] at hr; simp at hr; rw [hr]; exact ⟨rfl, rfl⟩
      | content bs ct =>
        rw [hn] at hr
        cases htl : textLike ct <;> simp [htl] at hr <;> rw [hr] <;> exact ⟨rfl, rfl⟩
      | redirect tgt =>
        rw [hn] at hr; simp at hr; rw [hr]; exact ⟨rfl, rfl⟩
  | succ f ih =>
    intro url r hr
    unfold fetchGo at hr
    cases hv : validateURL url with
    | error e => rw [hv] at hr; simp at hr
    | ok w =>
      rw [hv] at hr
      cases hn : net url with
      | failure =>
        rw [hn] at hr; simp at hr; rw [hr]; exact ⟨rfl, rfl⟩
      | content bs ct =>
        rw [hn] at hr
        cases htl : textLike ct <;> simp [htl] at hr <;> rw [hr] <;> exact ⟨rfl, rfl⟩
      | redirect tgt =>
        rw [hn] at hr
        simp at hr
        rcases hr with hr | hr
        · rw [hr]; exact ⟨rfl, rfl⟩
        · exact ih tgt r hr
theorem fetchGo_hop_bound (net : String → NetResponse) (p : TransportPolicy) :
    ∀ (fuel : Nat) (url : String),
      (fetchGo net p fuel url).2.length ≤ fuel + 1 := by
  intro fuel
  induction fuel with
  | zero =>
    intro url
    unfold fetchGo
    cases hv : validateURL url with
    | error e => simp
    | ok w =>
      cases hn : net url with
      | failure => simp
      | content bs ct => cases htl : textLike ct <;> simp [htl]
      | redirect tgt => simp
  | succ f ih =>
    intro url
    unfold fetchGo
    cases hv : validateURL url with
    | error e => simp
    | ok w =>
      cases hn : net url with
      | failure => simp
      | content bs ct => cases htl : textLike ct <;> simp [htl]
      | redirect tgt =>
        simp only [List.length_cons]
        have := ih tgt
        omega

theorem fetchGo_disallowed_url (net : String → NetResponse) (p : TransportPolicy)
    (fuel : Nat) (url : String) (h : isRejected (validateURL url) = true) :
    fetchGo net p fuel url = (.error .redirectToDisallowedHost, []) := by
  unfold fetchGo
  cases hv : validateURL url with
  | error e => rfl
  | ok w => rw [hv] at h; exact absurd h (by simp [isRejected])

theorem fetchGo_redirect_not_followed (net : String → NetResponse)
    (p : TransportPolicy) (fuel : Nat) (url tgt : String) (w : ParsedURL)
    (hw : validateURL url = .ok w) (hn : net url = .redirect tgt)
    (ht : isRejected (validateURL tgt) = true) :
    fetchGo net p (fuel + 1) url =
      (.error .redirectToDisallowedHost, [mkRequest p url]) := by
  have hrec := fetchGo_disallowed_url net p fuel tgt ht
  unfold fetchGo
  rw [hw, hn]
  simp [hrec]

/-- C6: every fetch operates under the fixed transport policy: a 30
second timeout and the declared client identifier stamped on every
request, at most five redirect hops, and re-validation of the URL through
the Validator on every hop, so a redirect to a disallowed host fails the
fetch and the disallowed target is never requested. -/
theorem fetch_policy_spec :
    fixedPolicy.timeoutSecs = 30 ∧ fixedPolicy.maxRedirects = 5 ∧
    fixedPolicy.userAgent = "skillctl/0.0.9" ∧
    (∀ (net : String → NetResponse) (url : String) (r : HttpRequest),
        r ∈ (fetchTrace net url).2 →
        r.userAgent = fixedPolicy.userAgent ∧
          r.timeoutSecs = fixedPolicy.timeoutSecs) ∧
    (∀ (net : String → NetResponse) (url : String),
        (fetchTrace net url).2.length ≤ fixedPolicy.maxRedirects + 1) ∧
    (∀ (net : String → NetResponse) (p : TransportPolicy) (fuel : Nat)
        (url : String),
        isRejected (validateURL url) = true →
        fetchGo net p fuel url = (.error .redirectToDisallowedHost, [])) ∧
    (∀ (net : String → NetResponse) (p : TransportPolicy) (fuel : Nat)
        (url tgt : String) (w : ParsedURL),
        validateURL url = .ok w → net url = .redirect tgt →
        isRejected (validateURL tgt) = true →
        fetchGo net p (fuel + 1) url =
          (.error .redirectToDisallowedHost, [mkRequest p url])) :=
  ⟨rfl, rfl, rfl,
    fun net url r hr => fetchGo_policy_attrs net fixedPolicy _ url r hr,
    fun net url => fetchGo_hop_bound net fixedPolicy _ url,
    fun net p fuel url h => fetchGo_disallowed_url net p fuel url h,
    fun net p fuel url tgt w hw hn ht =>
      fetchGo_redirect_not_followed net p fuel url tgt w hw hn ht⟩

/-- C6 witness: on a network redirecting toward 192.168.1.1, the fetch
fails with redirectToDisallowedHost after the single allowed request. -/
theorem fetch_policy_spec_witness :
    (validateURL "https://github.com/wshobson/agents" =
        .ok ⟨"https", "github.com", "/wshobson/agents"⟩ ∧
      netRedirPrivate "https://github.com/wshobson/agents" =
        .redirect "https://192.168.1.1/x" ∧
      isRejected (validateURL "https://192.168.1.1/x") = true) ∧
    fetchGo netRedirPrivate fixedPolicy 5 "https://github.com/wshobson/agents" =
      (.error .redirectToDisallowedHost,
        [mkRequest fixedPolicy "https://github.com/wshobson/agents"]) :=
  ⟨⟨rfl, rfl, by decide⟩,
    fetch_policy_spec.2.2.2.2.2.2 netRedirPrivate fixedPolicy 4
      "https://github.com/wshobson/agents" "https://192.168.1.1/x"
      ⟨"https", "github.com", "/wshobson/agents"⟩ rfl rfl (by decide)⟩

/-- C7: verify reports hashMatch exactly when the recomputed hash of the
on-disk content equals the hash recorded in the manifest, and after an
out-of-band mutation of the stored blob verify reports hashMismatch;
verify only observes the store, so a mismatch is reported, never
silently repaired. -/
theorem verify_spec :
    (∀ (s : StoreState) (n : String) (e : SkillEntry) (bs : List Nat),
        lookupEntry s n = some e → lookupFile s n = some bs →
        (verify s n = .hashMatch ↔ contentHash bs = e.hash)) ∧
    (∀ (s : StoreState) (n : String) (e : SkillEntry) (c c2 : List Nat),
        lookupEntry s n = some e → e.hash = contentHash c →
        (∀ b ∈ c, b < 256) → (∀ b ∈ c2, b < 256) → c2 ≠ c →
        verify (mutateFile s n c2) n = .hashMismatch) := by
  constructor
  · intro s n e bs he hf
    unfold verify
    rw [he, hf]
    by_cases h : contentHash bs = e.hash
    · simp [h]
    · simp [h]
  · intro s n e c c2 he hh hc hc2 hne
    have hle : lookupEntry (mutateFile s n c2) n = some e := he
    have hlf : lookupFile (mutateFile s n c2) n = some c2 :=
      lookupFile_setFile s.files n s.manifest c2
    unfold verify
    rw [hle, hlf]
    have hdiff : contentHash c2 ≠ e.hash := by
      rw [hh]
      intro hEq
      exact hne (contentHash_inj c2 c hc2 hc hEq)
    simp [hdiff]

theorem verify_spec_witness :
    ((lookupEntry wStore "typescript" = some wEntry ∧
        lookupFile wStore "typescript" = some (strBytes "hello")) ∧
      (verify wStore "typescript" = .hashMatch ↔
        contentHash (strBytes "hello") = wEntry.hash)) ∧
    (((∀ b ∈ strBytes "hello", b < 256) ∧
        (∀ b ∈ strBytes "tampered", b < 256) ∧
        strBytes "tampered" ≠ strBytes "hello") ∧
      verify (mutateFile wStore "typescript" (strBytes "tampered"))
          "typescript" =
        .hashMismatch) :=
  ⟨⟨⟨rfl, rfl⟩,
      verify_spec.1 wStore "typescript" wEntry (strBytes "hello") rfl rfl⟩,
    ⟨⟨by decide, by decide, by decide⟩,
      verify_spec.2 wStore "typescript" wEntry (strBytes "hello")
        (strBytes "tampered") rfl rfl (by decide) (by decide) (by decide)⟩⟩

/-- C8: install is idempotent over unchanged remote content: a second
install of the same name, URL and ref on an unchanged network yields the
same hash and leaves lastUpdated unchanged, and update reports unchanged
exactly when the freshly computed hash equals the recorded one and
updated otherwise. -/
theorem install_update_idempotent :
    (∀ (net : String → NetResponse) (s : StoreState) (n url rf : String)
        (now1 now2 : Nat) (e1 : SkillEntry),
        (install net s n url rf now1).result = .ok e1 →
        ∃ e2,
          (install net (install net s n url rf now1).store n url rf
              now2).result = .ok e2 ∧
          e2.hash = e1.hash ∧ e2.lastUpdated = e1.lastUpdated) ∧
    (∀ (net : String → NetResponse) (s : StoreState) (n : String) (now : Nat)
        (old e : SkillEntry),
        lookupEntry s n = some old →
        (install net s n old.origin old.ref now).result = .ok e →
        (((update net s n now).2 = .unchanged) ↔ e.hash = old.hash) ∧
        (((update net s n now).2 = .updated) ↔ ¬ e.hash = old.hash)) := by
  constructor
  · intro net s n url rf now1 now2 e1 h1
    cases ha : validateName n with
    | error r => exfalso; unfold install at h1; simp only [ha] at h1; simp at h1
    | ok a =>
      cases hw : validateURL url with
      | error r => exfalso; unfold install at h1; simp only [ha, hw] at h1; simp at h1
      | ok w =>
        cases hft : fetchTrace net url with
        | mk res reqs =>
          cases res with
          | error fe =>
            exfalso; unfold install at h1; simp only [ha, hw, hft] at h1; simp at h1
          | ok bs =>
            cases hc : validateContent bs with
            | error r =>
              exfalso
              unfold install at h1
              simp only [ha, hw, hft, hc] at h1
              simp at h1
            | ok u =>
              have hinst1 : install net s n url rf now1 =
                  ⟨⟨upsertEntry s.manifest (mkEntry s n url rf bs now1),
                      setFile s.files n bs⟩,
                    .ok (mkEntry s n url rf bs now1), reqs⟩ := by
                unfold install; simp only [ha, hw, hft, hc]
              rw [hinst1] at h1
              replace h1 : mkEntry s n url rf bs now1 = e1 := by
                simpa using h1
              have hinst2 : install net
                  (⟨upsertEntry s.manifest (mkEntry s n url rf bs now1),
                      setFile s.files n bs⟩ : StoreState) n url rf now2 =
                  ⟨⟨upsertEntry
                        (upsertEntry s.manifest (mkEntry s n url rf bs now1))
                        (mkEntry
                          ⟨upsertEntry s.manifest (mkEntry s n url rf bs now1),
                            setFile s.files n bs⟩ n url rf bs now2),
                      setFile (setFile s.files n bs) n bs⟩,
                    .ok (mkEntry
                      ⟨upsertEntry s.manifest (mkEntry s n url rf bs now1),
                        setFile s.files n bs⟩ n url rf bs now2), reqs⟩ := by
                unfold install; simp only [ha, hw, hft, hc]
              refine ⟨mkEntry
                  ⟨upsertEntry s.manifest (mkEntry s n url rf bs now1),
                    setFile s.files n bs⟩ n url rf bs now2, ?_, ?_, ?_⟩
              · rw [hinst1, hinst2]
              · rw [← h1]; rfl
              · rw [← h1]
                show entryLastUpdated
                    ⟨upsertEntry s.manifest (mkEntry s n url rf bs now1),
                      setFile s.files n bs⟩ n (contentHash bs) now2 =
                  (mkEntry s n url rf bs now1).lastUpdated
                have hlk : lookupEntry
                    ⟨upsertEntry s.manifest (mkEntry s n url rf bs now1),
                      setFile s.files n bs⟩ n =
                    some (mkEntry s n url rf bs now1) :=
                  lookupEntry_upsert s.manifest (mkEntry s n url rf bs now1)
                    (setFile s.files n bs)
                unfold entryLastUpdated
                rw [hlk]
                simp [mkEntry]
  · intro net s n now old e hold h2
    have hout : (update net s n now).2 =
        (if e.hash = old.hash then UpdateOutcome.unchanged else .updated) := by
      unfold update
      rw [hold]
      simp only [h2]
    by_cases hh : e.hash = old.hash
    · rw [hout]
      simp [hh]
    · rw [hout]
      simp [hh]
theorem install_update_idempotent_witness :
    ((install netOk emptyStore "typescript"
          "https://github.com/wshobson/agents" "main" 3).result =
        .ok (mkEntry emptyStore "typescript"
          "https://github.com/wshobson/agents" "main" (strBytes "hello") 3) ∧
      ∃ e2, (install netOk (install netOk emptyStore "typescript"
              "https://github.com/wshobson/agents" "main" 3).store "typescript"
              "https://github.com/wshobson/agents" "main" 9).result = .ok e2 ∧
        e2.hash = (mkEntry emptyStore "typescript"
          "https://github.com/wshobson/agents" "main"
            (strBytes "hello") 3).hash ∧
        e2.lastUpdated = (mkEntry emptyStore "typescript"
          "https://github.com/wshobson/agents" "main"
            (strBytes "hello") 3).lastUpdated) ∧
    ((lookupEntry wStore "typescript" = some wEntry ∧
        (install netOk wStore "typescript" wEntry.origin wEntry.ref 9).result =
          .ok wEntry) ∧
      (((update netOk wStore "typescript" 9).2 = .unchanged) ↔
        wEntry.hash = wEntry.hash) ∧
      (((update netOk wStore "typescript" 9).2 = .updated) ↔
        ¬ wEntry.hash = wEntry.hash)) :=
  ⟨⟨rfl,
      install_update_idempotent.1 netOk emptyStore "typescript"
        "https://github.com/wshobson/agents" "main" 3 9
        (mkEntry emptyStore "typescript" "https://github.com/wshobson/agents"
          "main" (strBytes "hello") 3) rfl⟩,
    ⟨rfl, rfl⟩,
    install_update_idempotent.2 netOk wStore "typescript" 9 wEntry wEntry
      rfl rfl⟩

/-- C9: every filesystem write of the installer script targets the bin
directory (creating it) or the fixed binary path beneath it (writing the
executable and setting its permissions); on an unsupported platform it
writes nothing, and no write path depends on the skill store, the
manifest, or any user input. -/
theorem installer_writes_spec :
    ∀ (root platform : String) (binDirExists downloadOk : Bool),
      (∀ w ∈ installerWrites root platform binDirExists downloadOk,
        FSWrite.path w = binDir root ∨
          FSWrite.path w = installerDest root platform) ∧
      (supportedPlatform platform = false →
        installerWrites root platform binDirExists downloadOk = []) ∧
      (∀ p m,
        FSWrite.chmod p m ∈ installerWrites root platform binDirExists downloadOk →
        p = installerDest root platform ∧ m = 0o755) := by
  intro root platform d k
  refine ⟨?_, ?_, ?_⟩
  · intro w hw
    unfold installerWrites at hw
    split_ifs at hw <;> fin_cases hw <;> simp [FSWrite.path]
  · intro h
    simp [installerWrites, h]
  · intro p m hm
    unfold installerWrites at hm
    split_ifs at hm <;> simp_all

/-- C9 witness: a concrete Linux run with an absent bin directory and a
successful download. -/
theorem installer_writes_spec_witness :
    (FSWrite.writeFile (installerDest "/pkg" "linux") ∈
        installerWrites "/pkg" "linux" false true ∧
      (FSWrite.path (FSWrite.writeFile (installerDest "/pkg" "linux")) =
          binDir "/pkg" ∨
        FSWrite.path (FSWrite.writeFile (installerDest "/pkg" "linux")) =
          installerDest "/pkg" "linux")) ∧
    (FSWrite.chmod (installerDest "/pkg" "linux") 0o755 ∈
        installerWrites "/pkg" "linux" false true ∧
      installerDest "/pkg" "linux" = installerDest "/pkg" "linux" ∧
        (0o755 : Nat) = 0o755) ∧
    (supportedPlatform "plan9" = false ∧
      installerWrites "/pkg" "plan9" false true = []) :=
  ⟨⟨by decide,
      (installer_writes_spec "/pkg" "linux" false true).1
        (FSWrite.writeFile (installerDest "/pkg" "linux")) (by decide)⟩,
    ⟨by decide,
      (installer_writes_spec "/pkg" "linux" false true).2.2
        (installerDest "/pkg" "linux") 0o755 (by decide)⟩,
    ⟨by decide, (installer_writes_spec "/pkg" "plan9" false true).2.1 (by decide)⟩⟩

/-- C10: when the platform binary is absent the Node wrapper prints an
error, spawns nothing and exits with status 1; when it is present the
wrapper spawns the binary with every command-line argument forwarded and
exits with the child exit code. -/
theorem wrapper_spec :
    ∀ (dir platform : String) (argv : List String) (childExit : Nat),
      runWrapper dir platform false argv childExit = ⟨true, none, 1⟩ ∧
      runWrapper dir platform true argv childExit =
        ⟨false, some (wrapperBinPath dir platform, argv.drop 2), childExit⟩ :=
  fun _ _ _ _ => ⟨rfl, rfl⟩

end SkillCtl
